import Mathlib

/-
Formal model of the multi-axis stepper motion engine of ESPfirmware.cpp
(drksam/LCleanerControler).

Modelling conventions:
* C `int`/`long` values are modelled as unbounded `Int`; 32-bit wraparound is
  not modelled (positions, step counts and delays in this firmware stay far
  below 2^31 in the scenarios the theorems cover).
* The C expression `(int)((float)a * ((float)k / (float)n))` (a float product
  truncated toward zero) is modelled as the exact truncated integer division
  `Int.tdiv (a * k) n`; `Int.tdiv` rounds toward zero exactly as the C cast
  does on the exact rational value.  Divisions of nonnegative quantities
  (`totalSteps * 2 / 5`, `totalSteps / 2`) use `/`, which agrees with C's
  truncating division on nonnegative operands.
* GPIO pin numbers (stepPin, dirPin, enablePin, limitA, limitB, home) only
  route I/O; they are not part of the model.  The level read from each switch
  input is supplied to a scheduler tick as a `TickInput` (a field is `true`
  iff the pin reads LOW, i.e. the switch is triggered, as in
  `readLimitSwitch`).  The level last written to the enable line is tracked
  in the field `enableHigh` (HIGH = driver disabled).
* `micros()` timestamps are `Nat`; the unsigned-wraparound subtraction
  `now - lastStepTime` is modelled as subtraction in `Int` (no wraparound).
* Serial JSON emission is modelled as documentation of a `List Event`.
-/

namespace LCleaner

/-- Events emitted by the motion engine toward the dispatcher: one step pulse
per assert/deassert cycle of the step line, `limit_hit` from
`sendLimitHitEvent`, and `stepper_done` from `sendStepperDone`. -/
inductive Event where
  | stepPulse (id : Nat)
  | limitHit (id : Nat) (limit : String) (position : Int)
  | stepperDone (id : Nat) (position : Int)
  deriving DecidableEq, Repr

/-- The per-axis state record `StepperConfig` of ESPfirmware.cpp
(lines 15-46), restricted to the non-wiring fields (see header note). -/
structure Stepper where
  position : Int
  minLimit : Int
  maxLimit : Int
  target : Int
  active : Bool
  paused : Bool
  direction : Bool
  homing : Bool
  enableConfigured : Bool
  enableHigh : Bool
  lastStepTime : Nat
  speed : Int
  acceleration : Int
  deceleration : Int
  minDelay : Int
  maxDelay : Int
  useAcceleration : Bool
  currentDelay : Int
  totalSteps : Int
  stepsTaken : Int
  accelSteps : Int
  decelSteps : Int
  movePhase : Int
  deriving DecidableEq, Repr

/-- The axis state set up by `setup()` (lines 87-97): zero-initialized record,
then acceleration disabled and the default delay bounds installed. -/
def initialStepper : Stepper where
  position := 0
  minLimit := 0
  maxLimit := 0
  target := 0
  active := false
  paused := false
  direction := false
  homing := false
  enableConfigured := false
  enableHigh := false
  lastStepTime := 0
  speed := 0
  acceleration := 0
  deceleration := 0
  minDelay := 500
  maxDelay := 5000
  useAcceleration := false
  currentDelay := 1000
  totalSteps := 0
  stepsTaken := 0
  accelSteps := 0
  decelSteps := 0
  movePhase := 0

/-- `MAX_STEPPERS` (line 7): capacity of the axis registry. -/
def MAX_STEPPERS : Int := 2

/-- `calculateAccelSteps` (lines 506-522).  The C function reads
`steppers[id].acceleration`; the model takes that field as an argument. -/
def calculateAccelSteps (acceleration totalSteps : Int) : Int :=
  if acceleration ≤ 0 then 0
  else
    let calculatedSteps := acceleration
    let maxAccelSteps := totalSteps * 2 / 5
    let finalSteps := min maxAccelSteps calculatedSteps
    max finalSteps 10

/-- `calculateDecelSteps` (lines 524-540). -/
def calculateDecelSteps (deceleration totalSteps : Int) : Int :=
  if deceleration ≤ 0 then 0
  else
    let calculatedSteps := deceleration
    let maxDecelSteps := totalSteps * 2 / 5
    let finalSteps := min maxDecelSteps calculatedSteps
    max finalSteps 10

/-- `calculateAccelDelay` (lines 542-550): linear interpolation from
`startDelay` down to `endDelay`; the float product cast to `int` is modelled
as truncated division (see header note).  The unused `id` parameter of the C
function is dropped. -/
def calculateAccelDelay (currentStep totalAccelSteps startDelay endDelay : Int) : Int :=
  if totalAccelSteps = 0 then endDelay
  else startDelay - Int.tdiv ((startDelay - endDelay) * currentStep) totalAccelSteps

/-- `calculateDecelDelay` (lines 552-560). -/
def calculateDecelDelay (currentStep totalDecelSteps startDelay endDelay : Int) : Int :=
  if totalDecelSteps = 0 then startDelay
  else startDelay + Int.tdiv ((endDelay - startDelay) * currentStep) totalDecelSteps

/-- `startAcceleratedMove` (lines 464-504): derives `totalSteps` from the
current position, computes the two phase lengths, clamps their sum to
`totalSteps` (even split), and picks the starting phase and delay.  The
debug JSON block (lines 473-485) has no state effect and is omitted. -/
def startAcceleratedMove (s : Stepper) (targetPos moveSpeed : Int) : Stepper :=
  let totalSteps : Int := |targetPos - s.position|
  let accelSteps0 := calculateAccelSteps s.acceleration totalSteps
  let decelSteps0 := calculateDecelSteps s.deceleration totalSteps
  let clamp := accelSteps0 + decelSteps0 > totalSteps
  let accelSteps1 := if clamp then totalSteps / 2 else accelSteps0
  let decelSteps1 := if clamp then totalSteps - totalSteps / 2 else decelSteps0
  { s with
    totalSteps := totalSteps
    stepsTaken := 0
    speed := moveSpeed
    accelSteps := accelSteps1
    decelSteps := decelSteps1
    movePhase := if accelSteps1 > 0 then 0 else 1
    currentDelay := if accelSteps1 > 0 then s.maxDelay else moveSpeed
    active := true
    paused := false }

/-- The `move_stepper` handler body for one axis (lines 238-255), i.e. the
state mutation performed after the `id < MAX_STEPPERS` guard.  `dir` is the
`dir == 1` test of the C code as a `Bool` (the JSON protocol sends 0 or 1). -/
def moveStepperCmd (s : Stepper) (steps : Int) (dir : Bool) (speed : Int) (now : Nat) : Stepper :=
  let s1 := { s with
    target := s.position + (if dir then steps else -steps)
    speed := speed
    direction := dir
    homing := false
    enableHigh := if s.enableConfigured then false else s.enableHigh }
  let s2 :=
    if s1.useAcceleration = true ∧ (s1.acceleration > 0 ∨ s1.deceleration > 0) then
      startAcceleratedMove s1 s1.target speed
    else
      { s1 with active := true, paused := false, currentDelay := speed }
  { s2 with lastStepTime := now }

/-- The `home_stepper` handler body for one axis (lines 260-273).  `speedArg`
is `doc["speed"]` when present (default homing speed 1000). -/
def homeStepperCmd (s : Stepper) (speedArg : Option Int) (now : Nat) : Stepper :=
  let sp := speedArg.getD 1000
  { s with
    direction := false
    target := -999999
    active := true
    paused := false
    homing := true
    speed := sp
    currentDelay := sp
    enableHigh := if s.enableConfigured then false else s.enableHigh
    lastStepTime := now }

/-- The `set_stepper_acceleration` handler body for one axis (lines 280-282). -/
def setAccelerationCmd (s : Stepper) (acceleration : Int) : Stepper :=
  let s1 := { s with acceleration := acceleration }
  { s1 with useAcceleration := s1.acceleration > 0 ∨ s1.deceleration > 0 }

/-- The `set_stepper_deceleration` handler body for one axis (lines 295-297). -/
def setDecelerationCmd (s : Stepper) (deceleration : Int) : Stepper :=
  let s1 := { s with deceleration := deceleration }
  { s1 with useAcceleration := s1.acceleration > 0 ∨ s1.deceleration > 0 }

/-- The `set_stepper_speed_limits` handler body for one axis (lines 311-312). -/
def setSpeedLimitsCmd (s : Stepper) (minDelay maxDelay : Int) : Stepper :=
  { s with minDelay := minDelay, maxDelay := maxDelay }

/-- The `init_stepper` handler body for one axis (lines 200-230), restricted
to the modelled fields: records whether an enable pin was configured (and
drives it HIGH), zeroes the position and clears the flags. -/
def initStepperCmd (s : Stepper) (minLimit maxLimit : Int) (enableConfigured : Bool) : Stepper :=
  { s with
    minLimit := minLimit
    maxLimit := maxLimit
    enableConfigured := enableConfigured
    enableHigh := if enableConfigured then true else s.enableHigh
    position := 0
    active := false
    paused := false
    homing := false }

/-- The id guard of the `move_stepper` handler (line 237): the C code tests
only `id < MAX_STEPPERS`, with no lower bound. -/
def moveStepperGuard (id : Int) : Bool := id < MAX_STEPPERS

/-- The id guard of `set_stepper_acceleration` (line 279); the same guard is
used by `set_stepper_deceleration` (line 294), `set_stepper_speed_limits`
(line 310), `get_pin_states` (line 322) and `get_status` (line 332). -/
def setAccelerationGuard (id : Int) : Bool := 0 ≤ id ∧ id < MAX_STEPPERS

/-- The id guard of the `home_stepper` handler (lines 260-273): the handler
reads `doc["id"]` and mutates `steppers[id]` with no range check at all, so
every id is accepted. -/
def homeStepperGuard (_id : Int) : Bool := true

/-- The id guard of the `init_stepper` handler (lines 200-230): likewise, no
range check is performed. -/
def initStepperGuard (_id : Int) : Bool := true

/-- `checkLimitSwitches` (lines 567-583).  `limitA`/`limitB` are the
`readLimitSwitch` values of the two switch pins (true = triggered).
Direction 1 (forward/CW) is guarded by limit A, direction 0 by limit B. -/
def checkLimitSwitches (id : Nat) (s : Stepper) (limitA limitB : Bool) : Stepper × List Event :=
  if s.direction = true ∧ limitA = true then
    ({ s with active := false
              enableHigh := if s.enableConfigured then true else s.enableHigh },
      [Event.limitHit id "limit_a" s.position])
  else if s.direction = false ∧ limitB = true then
    ({ s with active := false
              enableHigh := if s.enableConfigured then true else s.enableHigh },
      [Event.limitHit id "limit_b" s.position])
  else (s, [])

/-- The switch levels and clock value a scheduler tick observes (each switch
field is true iff its pin reads LOW, i.e. the switch is triggered). -/
structure TickInput where
  now : Nat
  limitA : Bool
  limitB : Bool
  homeSw : Bool
  deriving DecidableEq, Repr

/-- The delay compared against the elapsed time in `updateSteppers`
(line 401): the stored `currentDelay` when acceleration is in use, the
constant `speed` otherwise. -/
def tickDelay (s : Stepper) : Int :=
  if s.useAcceleration then s.currentDelay else s.speed

/-- The acceleration/deceleration block of `updateSteppers` (lines 420-443):
increment `stepsTaken`, then advance the move phase and recompute the delay.
Phase 0 = accelerating, 1 = constant speed, 2 = decelerating. -/
def accelPhaseUpdate (s : Stepper) : Stepper :=
  let s1 := { s with stepsTaken := s.stepsTaken + 1 }
  if s1.movePhase = 0 then
    if s1.stepsTaken < s1.accelSteps then
      { s1 with currentDelay :=
          calculateAccelDelay s1.stepsTaken s1.accelSteps s1.maxDelay s1.speed }
    else
      { s1 with movePhase := 1, currentDelay := s1.speed }
  else if s1.movePhase = 1 then
    let remainingSteps := s1.totalSteps - s1.stepsTaken
    if remainingSteps ≤ s1.decelSteps then { s1 with movePhase := 2 } else s1
  else if s1.movePhase = 2 then
    let decelStep := s1.stepsTaken - (s1.totalSteps - s1.decelSteps)
    { s1 with currentDelay :=
        calculateDecelDelay decelStep s1.decelSteps s1.speed s1.maxDelay }
  else s1

/-- One axis's slice of a single `updateSteppers` tick (lines 392-452):
skip if idle or paused; run the limit interlock unless homing and bail out
if it deactivated the axis; if the inter-step delay has elapsed, emit one
step pulse and move `position` by one step, then handle homing completion,
the acceleration phase update, and move completion, in that order. -/
def updateStepperTick (id : Nat) (s : Stepper) (inp : TickInput) : Stepper × List Event :=
  if s.active = false ∨ s.paused = true then (s, [])
  else
    let checked :=
      if s.homing = false then checkLimitSwitches id s inp.limitA inp.limitB else (s, [])
    let s1 := checked.1
    let evs := checked.2
    if s1.active = false then (s1, evs)
    else if (inp.now : Int) - (s1.lastStepTime : Int) ≥ tickDelay s1 then
      let s2 := { s1 with
        position := s1.position + (if s1.direction then 1 else -1)
        lastStepTime := inp.now }
      if s2.homing = true ∧ inp.homeSw = true then
        let s3 := { s2 with active := false, homing := false, position := 0,
                            enableHigh := if s2.enableConfigured then true else s2.enableHigh }
        (s3, evs ++ [Event.stepPulse id, Event.stepperDone id s3.position])
      else
        let s3 := if s2.useAcceleration = true ∧ s2.homing = false then accelPhaseUpdate s2 else s2
        if s3.homing = false ∧ s3.position = s3.target then
          let s4 := { s3 with active := false,
                              enableHigh := if s3.enableConfigured then true else s3.enableHigh }
          (s4, evs ++ [Event.stepPulse id, Event.stepperDone id s4.position])
        else (s3, evs ++ [Event.stepPulse id])
    else (s1, evs)

/-- One full `updateSteppers` call (lines 390-453): the per-axis tick applied
to both registry slots in index order, events concatenated in that order. -/
def updateSteppers (sts : Fin 2 → Stepper) (inps : Fin 2 → TickInput) :
    (Fin 2 → Stepper) × List Event :=
  let r0 := updateStepperTick 0 (sts 0) (inps 0)
  let r1 := updateStepperTick 1 (sts 1) (inps 1)
  (fun i => if i = 0 then r0.1 else r1.1, r0.2 ++ r1.2)

/-- A sequence of scheduler ticks for one axis, one `TickInput` per tick. -/
def runTicks (id : Nat) : List TickInput → Stepper → Stepper × List Event
  | [], s => (s, [])
  | inp :: rest, s =>
    let r := updateStepperTick id s inp
    let r2 := runTicks id rest r.1
    (r2.1, r.2 ++ r2.2)

/-- A tick input under which the inter-step delay has certainly elapsed and
no switch is triggered: a representative input for a move that runs to
completion unobstructed. -/
def fireInput (s : Stepper) : TickInput :=
  { now := s.lastStepTime + s.currentDelay.toNat + s.speed.toNat
    limitA := false
    limitB := false
    homeSw := false }

/-- Iterated unobstructed ticks (every tick fires, no switch triggered). -/
def runMove (id : Nat) (s : Stepper) : Nat → Stepper
  | 0 => s
  | n + 1 => runMove id (updateStepperTick id s (fireInput s)).1 n

/-- The move phase an accelerated move with phase lengths `A`, `D` and total
length `T` holds after `k` completed steps (0 = ACCEL, 1 = CONST, 2 = DECEL),
as enforced by the transition rules of lines 425-442. -/
def phaseOf (A D T k : Int) : Int :=
  if k < A then 0 else if T - k ≤ D then 2 else 1

/-- Step direction as a position increment: `direction == 1` moves +1 per
pulse, `direction == 0` moves -1 (line 407). -/
def dirSign (d : Bool) : Int := if d then 1 else -1

/-- Mid-move state of an accelerated move started at position `p0` in
direction `d` with clamped phase lengths `A`, `D` and length `T`, after `k`
completed steps: what `startAcceleratedMove` establishes at `k = 0` and
every unobstructed fired tick re-establishes at `k + 1` until `k = T`. -/
def MoveInv (p0 : Int) (d : Bool) (A D T k : Int) (s : Stepper) : Prop :=
  s.active = true ∧ s.paused = false ∧ s.homing = false ∧ s.useAcceleration = true ∧
  s.direction = d ∧ s.stepsTaken = k ∧ s.position = p0 + dirSign d * k ∧
  s.target = p0 + dirSign d * T ∧ s.totalSteps = T ∧ s.accelSteps = A ∧
  s.decelSteps = D ∧ s.movePhase = phaseOf A D T k

/-- The target is not strictly ahead of the position in the current travel
direction.  A zero-step move establishes this (target = position), every
unobstructed tick preserves it, and under it the completion test
`position == target` (evaluated only after the step, line 446) never
succeeds. -/
def NoTargetAhead (s : Stepper) : Prop :=
  s.active = true ∧ s.paused = false ∧ s.homing = false ∧
  (s.direction = true → s.target ≤ s.position) ∧
  (s.direction = false → s.position ≤ s.target)

/-! ### Concrete axis states used as inputs of counterexamples and witnesses -/

/-- Startup axis after `set_stepper_deceleration(0, 100)`: deceleration set,
acceleration still 0, `useAcceleration` true. -/
def accelZeroAxis : Stepper := setDecelerationCmd initialStepper 100

/-- Startup axis after setting both ramp magnitudes to 500. -/
def bothAccelAxis : Stepper :=
  setAccelerationCmd (setDecelerationCmd initialStepper 500) 500

/-- Startup axis after `move_stepper(steps=100, dir=1, speed=500)`: a
constant-speed forward move toward +100 in progress. -/
def movingAxis : Stepper := moveStepperCmd initialStepper 100 true 500 0

/-- An axis at position 5 after `home_stepper` (default speed): a homing
move in progress. -/
def homingAxis : Stepper :=
  homeStepperCmd { initialStepper with position := 5 } none 0

/-- A quiet fired tick input: time advanced past every delay occurring in
the concrete scenarios, no switch triggered. -/
def quietInput : TickInput := { now := 1000, limitA := false, limitB := false, homeSw := false }

/-- A fired tick input with limit A (the forward/CW limit) triggered. -/
def limitAInput : TickInput := { now := 1000, limitA := true, limitB := false, homeSw := false }

/-- A fired tick input with the home switch triggered. -/
def homeInput : TickInput := { now := 2000, limitA := false, limitB := false, homeSw := true }

/-- The state after the step pulse of lines 404-408: position moved one step
in the current direction, pulse timestamp updated. -/
def postStep (t : Stepper) (now : Nat) : Stepper :=
  { t with position := t.position + (if t.direction then 1 else -1), lastStepTime := now }

/-- The state a fired non-homing tick holds after the pulse and the
acceleration block (lines 404-443). -/
def postAccel (t : Stepper) (now : Nat) : Stepper :=
  if t.useAcceleration = true then accelPhaseUpdate (postStep t now) else postStep t now


/-! ### Helper lemmas on the profile calculator -/

/-- `calculateAccelSteps` never returns a negative count. -/
theorem calculateAccelSteps_nonneg (a T : Int) : 0 ≤ calculateAccelSteps a T := by
  unfold calculateAccelSteps
  split_ifs
  · exact le_refl 0
  · exact le_trans (by norm_num) (le_max_right _ 10)

/-- `calculateDecelSteps` never returns a negative count. -/
theorem calculateDecelSteps_nonneg (a T : Int) : 0 ≤ calculateDecelSteps a T := by
  unfold calculateDecelSteps
  split_ifs
  · exact le_refl 0
  · exact le_trans (by norm_num) (le_max_right _ 10)

/-- If both endpoints of the acceleration interpolation lie in a band and the
step index lies inside the phase, the interpolated delay stays in the band. -/
theorem calculateAccelDelay_bounds (k n a b lo hi : Int)
    (hk : 0 ≤ k) (hkn : k ≤ n) (hba : b ≤ a) (hlo : lo ≤ b) (hhi : a ≤ hi) :
    lo ≤ calculateAccelDelay k n a b ∧ calculateAccelDelay k n a b ≤ hi := by
  unfold calculateAccelDelay
  split_ifs with h
  · exact ⟨hlo, le_trans hba hhi⟩
  · have hn : 0 < n := lt_of_le_of_ne (le_trans hk hkn) (Ne.symm h)
    have hnum : 0 ≤ (a - b) * k := mul_nonneg (by linarith) hk
    rw [Int.tdiv_eq_ediv hnum (le_of_lt hn)]
    have h1 : 0 ≤ (a - b) * k / n := Int.ediv_nonneg hnum (le_of_lt hn)
    have h2 : (a - b) * k / n ≤ a - b := by
      have hmul : (a - b) * k ≤ (a - b) * n :=
        mul_le_mul_of_nonneg_left hkn (by linarith)
      calc (a - b) * k / n ≤ (a - b) * n / n := Int.ediv_le_ediv hn hmul
        _ = a - b := Int.mul_ediv_cancel _ (ne_of_gt hn)
    exact ⟨by linarith, by linarith⟩

/-- Dual band lemma for the deceleration interpolation. -/
theorem calculateDecelDelay_bounds (k n a b lo hi : Int)
    (hk : 0 ≤ k) (hkn : k ≤ n) (hab : a ≤ b) (hlo : lo ≤ a) (hhi : b ≤ hi) :
    lo ≤ calculateDecelDelay k n a b ∧ calculateDecelDelay k n a b ≤ hi := by
  unfold calculateDecelDelay
  split_ifs with h
  · exact ⟨hlo, le_trans hab hhi⟩
  · have hn : 0 < n := lt_of_le_of_ne (le_trans hk hkn) (Ne.symm h)
    have hnum : 0 ≤ (b - a) * k := mul_nonneg (by linarith) hk
    rw [Int.tdiv_eq_ediv hnum (le_of_lt hn)]
    have h1 : 0 ≤ (b - a) * k / n := Int.ediv_nonneg hnum (le_of_lt hn)
    have h2 : (b - a) * k / n ≤ b - a := by
      have hmul : (b - a) * k ≤ (b - a) * n :=
        mul_le_mul_of_nonneg_left hkn (by linarith)
      calc (b - a) * k / n ≤ (b - a) * n / n := Int.ediv_le_ediv hn hmul
        _ = b - a := Int.mul_ediv_cancel _ (ne_of_gt hn)
    exact ⟨by linarith, by linarith⟩

/-- With the fast endpoint at most the slow one, the acceleration
interpolation is non-increasing in the step index. -/
theorem calculateAccelDelay_antitone (k l n a b : Int)
    (hk : 0 ≤ k) (hkl : k ≤ l) (hba : b ≤ a) (hn : 0 ≤ n) :
    calculateAccelDelay l n a b ≤ calculateAccelDelay k n a b := by
  unfold calculateAccelDelay
  split_ifs with h
  · exact le_refl b
  · have hn' : 0 < n := lt_of_le_of_ne hn (Ne.symm h)
    have hnum1 : 0 ≤ (a - b) * k := mul_nonneg (by linarith) hk
    have hnum2 : 0 ≤ (a - b) * l := mul_nonneg (by linarith) (le_trans hk hkl)
    rw [Int.tdiv_eq_ediv hnum1 hn, Int.tdiv_eq_ediv hnum2 hn]
    have hmul : (a - b) * k ≤ (a - b) * l :=
      mul_le_mul_of_nonneg_left hkl (by linarith)
    have := Int.ediv_le_ediv hn' hmul
    linarith

/-- With the fast endpoint at most the slow one, the deceleration
interpolation is non-decreasing in the step index. -/
theorem calculateDecelDelay_monotone (k l n a b : Int)
    (hk : 0 ≤ k) (hkl : k ≤ l) (hab : a ≤ b) (hn : 0 ≤ n) :
    calculateDecelDelay k n a b ≤ calculateDecelDelay l n a b := by
  unfold calculateDecelDelay
  split_ifs with h
  · exact le_refl a
  · have hn' : 0 < n := lt_of_le_of_ne hn (Ne.symm h)
    have hnum1 : 0 ≤ (b - a) * k := mul_nonneg (by linarith) hk
    have hnum2 : 0 ≤ (b - a) * l := mul_nonneg (by linarith) (le_trans hk hkl)
    rw [Int.tdiv_eq_ediv hnum1 hn, Int.tdiv_eq_ediv hnum2 hn]
    have hmul : (b - a) * k ≤ (b - a) * l :=
      mul_le_mul_of_nonneg_left hkl (by linarith)
    have := Int.ediv_le_ediv hn' hmul
    linarith

/-! ### Characterizations of one scheduler tick -/

theorem accelPhaseUpdate_position (s : Stepper) : (accelPhaseUpdate s).position = s.position := by
  simp only [accelPhaseUpdate]; split_ifs <;> rfl

theorem accelPhaseUpdate_target (s : Stepper) : (accelPhaseUpdate s).target = s.target := by
  simp only [accelPhaseUpdate]; split_ifs <;> rfl

theorem accelPhaseUpdate_active (s : Stepper) : (accelPhaseUpdate s).active = s.active := by
  simp only [accelPhaseUpdate]; split_ifs <;> rfl

theorem accelPhaseUpdate_paused (s : Stepper) : (accelPhaseUpdate s).paused = s.paused := by
  simp only [accelPhaseUpdate]; split_ifs <;> rfl

theorem accelPhaseUpdate_homing (s : Stepper) : (accelPhaseUpdate s).homing = s.homing := by
  simp only [accelPhaseUpdate]; split_ifs <;> rfl

theorem accelPhaseUpdate_direction (s : Stepper) :
    (accelPhaseUpdate s).direction = s.direction := by
  simp only [accelPhaseUpdate]; split_ifs <;> rfl

theorem accelPhaseUpdate_useAcceleration (s : Stepper) :
    (accelPhaseUpdate s).useAcceleration = s.useAcceleration := by
  simp only [accelPhaseUpdate]; split_ifs <;> rfl

theorem accelPhaseUpdate_enableConfigured (s : Stepper) :
    (accelPhaseUpdate s).enableConfigured = s.enableConfigured := by
  simp only [accelPhaseUpdate]; split_ifs <;> rfl

theorem accelPhaseUpdate_lastStepTime (s : Stepper) :
    (accelPhaseUpdate s).lastStepTime = s.lastStepTime := by
  simp only [accelPhaseUpdate]; split_ifs <;> rfl

theorem accelPhaseUpdate_totalSteps (s : Stepper) :
    (accelPhaseUpdate s).totalSteps = s.totalSteps := by
  simp only [accelPhaseUpdate]; split_ifs <;> rfl

theorem accelPhaseUpdate_accelSteps (s : Stepper) :
    (accelPhaseUpdate s).accelSteps = s.accelSteps := by
  simp only [accelPhaseUpdate]; split_ifs <;> rfl

theorem accelPhaseUpdate_decelSteps (s : Stepper) :
    (accelPhaseUpdate s).decelSteps = s.decelSteps := by
  simp only [accelPhaseUpdate]; split_ifs <;> rfl

theorem accelPhaseUpdate_stepsTaken (s : Stepper) :
    (accelPhaseUpdate s).stepsTaken = s.stepsTaken + 1 := by
  simp only [accelPhaseUpdate]; split_ifs <;> rfl

theorem accelPhaseUpdate_speed (s : Stepper) : (accelPhaseUpdate s).speed = s.speed := by
  simp only [accelPhaseUpdate]; split_ifs <;> rfl

/-- `checkLimitSwitches` either does nothing, stops on limit A while moving
forward, or stops on limit B while moving backward. -/
theorem checkLimitSwitches_cases (id : Nat) (s : Stepper) (a b : Bool) :
    checkLimitSwitches id s a b = (s, []) ∨
    (checkLimitSwitches id s a b
        = ({ s with active := false,
                    enableHigh := if s.enableConfigured then true else s.enableHigh },
           [Event.limitHit id "limit_a" s.position]) ∧ s.direction = true ∧ a = true) ∨
    (checkLimitSwitches id s a b
        = ({ s with active := false,
                    enableHigh := if s.enableConfigured then true else s.enableHigh },
           [Event.limitHit id "limit_b" s.position]) ∧ s.direction = false ∧ b = true) := by
  by_cases h1 : s.direction = true ∧ a = true
  · refine Or.inr (Or.inl ⟨?_, h1⟩)
    unfold checkLimitSwitches
    rw [if_pos h1]
  · by_cases h2 : s.direction = false ∧ b = true
    · refine Or.inr (Or.inr ⟨?_, h2⟩)
      unfold checkLimitSwitches
      rw [if_neg h1, if_pos h2]
    · refine Or.inl ?_
      unfold checkLimitSwitches
      rw [if_neg h1, if_neg h2]

theorem checkLimitSwitches_no_trigger (id : Nat) (s : Stepper) :
    checkLimitSwitches id s false false = (s, []) := by
  unfold checkLimitSwitches
  rw [if_neg (by simp), if_neg (by simp)]

/-- A tick does nothing on an idle or paused axis (line 393). -/
theorem updateStepperTick_inactive (id : Nat) (s : Stepper) (inp : TickInput)
    (h : s.active = false ∨ s.paused = true) :
    updateStepperTick id s inp = (s, []) := by
  unfold updateStepperTick
  rw [if_pos h]

/-- A homing tick: the limit interlock is skipped; when the delay has
elapsed the axis steps and then either completes (home switch reads
triggered: position forced to 0, flags cleared, enable line driven HIGH if
configured, one done event) or keeps homing at an untouched delay. -/
theorem updateStepperTick_homing (id : Nat) (t : Stepper) (inp : TickInput)
    (hA : t.active = true) (hP : t.paused = false) (hH : t.homing = true) :
    updateStepperTick id t inp =
      if (inp.now : Int) - (t.lastStepTime : Int) ≥ tickDelay t then
        if inp.homeSw = true then
          ({ t with position := 0, lastStepTime := inp.now, active := false, homing := false,
                    enableHigh := if t.enableConfigured then true else t.enableHigh },
            [Event.stepPulse id, Event.stepperDone id 0])
        else
          (postStep t inp.now, [Event.stepPulse id])
      else (t, []) := by
  obtain ⟨pos, mnl, mxl, tgt, act, pau, dir, hom, ec, eh, lst, sp, acc, dec, mnd, mxd,
    ua, cd, tot, stk, acs, dcs, mph⟩ := t
  dsimp only at hA hP hH
  subst hA hP hH
  simp only [updateStepperTick, postStep, tickDelay]
  norm_num

/-- When the limit interlock deactivates the axis, the tick returns the
interlock's result unchanged: the axis is skipped for the rest of the tick. -/
theorem updateStepperTick_limit_stop (id : Nat) (s : Stepper) (inp : TickInput)
    (hA : s.active = true) (hP : s.paused = false) (hH : s.homing = false)
    (hstop : (checkLimitSwitches id s inp.limitA inp.limitB).1.active = false) :
    updateStepperTick id s inp = checkLimitSwitches id s inp.limitA inp.limitB := by
  simp [updateStepperTick, hA, hP, hH, hstop]

/-- A non-homing tick whose limit interlock does not trigger: when the delay
has elapsed the axis steps, runs the acceleration block if enabled, and
completes exactly when the new position equals the target. -/
theorem updateStepperTick_normal (id : Nat) (t : Stepper) (inp : TickInput)
    (hA : t.active = true) (hP : t.paused = false) (hH : t.homing = false)
    (hns : checkLimitSwitches id t inp.limitA inp.limitB = (t, [])) :
    updateStepperTick id t inp =
      (let u := postAccel t inp.now
       if (inp.now : Int) - (t.lastStepTime : Int) ≥ tickDelay t then
         if u.position = u.target then
           ({ u with active := false
                     enableHigh := if u.enableConfigured then true else u.enableHigh },
             [Event.stepPulse id, Event.stepperDone id u.position])
         else (u, [Event.stepPulse id])
       else (t, [])) := by
  obtain ⟨pos, mnl, mxl, tgt, act, pau, dir, hom, ec, eh, lst, sp, acc, dec, mnd, mxd,
    ua, cd, tot, stk, acs, dcs, mph⟩ := t
  obtain ⟨now, la, lb, hs⟩ := inp
  dsimp only at hA hP hH hns
  subst hA hP hH
  simp only [updateStepperTick, postAccel, postStep, tickDelay, hns]
  norm_num
  by_cases hua : ua = true
  · subst hua
    norm_num
    split_ifs <;> first | rfl | simp_all [accelPhaseUpdate_homing]
  · have hf : ua = false := by revert hua; cases ua <;> simp
    subst hf
    norm_num

/-- `fireInput` always satisfies the elapsed-time test of line 403,
whichever branch of line 401 supplies the delay. -/
theorem fireInput_fires (s : Stepper) :
    ((fireInput s).now : Int) - (s.lastStepTime : Int) ≥ tickDelay s := by
  unfold fireInput tickDelay
  split_ifs
  · push_cast
    have h := Int.self_le_toNat s.currentDelay
    omega
  · push_cast
    have h := Int.self_le_toNat s.speed
    omega

theorem postAccel_position (t : Stepper) (now : Nat) :
    (postAccel t now).position = t.position + (if t.direction then 1 else -1) := by
  unfold postAccel
  split_ifs <;> simp_all [accelPhaseUpdate_position, postStep]

theorem postAccel_target (t : Stepper) (now : Nat) : (postAccel t now).target = t.target := by
  unfold postAccel
  split_ifs <;> simp [accelPhaseUpdate_target, postStep]

theorem postAccel_active (t : Stepper) (now : Nat) : (postAccel t now).active = t.active := by
  unfold postAccel
  split_ifs <;> simp [accelPhaseUpdate_active, postStep]

theorem postAccel_paused (t : Stepper) (now : Nat) : (postAccel t now).paused = t.paused := by
  unfold postAccel
  split_ifs <;> simp [accelPhaseUpdate_paused, postStep]

theorem postAccel_homing (t : Stepper) (now : Nat) : (postAccel t now).homing = t.homing := by
  unfold postAccel
  split_ifs <;> simp [accelPhaseUpdate_homing, postStep]

theorem postAccel_direction (t : Stepper) (now : Nat) :
    (postAccel t now).direction = t.direction := by
  unfold postAccel
  split_ifs <;> simp [accelPhaseUpdate_direction, postStep]

theorem postAccel_useAcceleration (t : Stepper) (now : Nat) :
    (postAccel t now).useAcceleration = t.useAcceleration := by
  unfold postAccel
  split_ifs <;> simp [accelPhaseUpdate_useAcceleration, postStep]

theorem postAccel_totalSteps (t : Stepper) (now : Nat) :
    (postAccel t now).totalSteps = t.totalSteps := by
  unfold postAccel
  split_ifs <;> simp [accelPhaseUpdate_totalSteps, postStep]

theorem postAccel_accelSteps (t : Stepper) (now : Nat) :
    (postAccel t now).accelSteps = t.accelSteps := by
  unfold postAccel
  split_ifs <;> simp [accelPhaseUpdate_accelSteps, postStep]

theorem postAccel_decelSteps (t : Stepper) (now : Nat) :
    (postAccel t now).decelSteps = t.decelSteps := by
  unfold postAccel
  split_ifs <;> simp [accelPhaseUpdate_decelSteps, postStep]

theorem postAccel_stepsTaken (t : Stepper) (now : Nat) :
    (postAccel t now).stepsTaken
      = (if t.useAcceleration = true then t.stepsTaken + 1 else t.stepsTaken) := by
  unfold postAccel
  split_ifs with h <;> simp [accelPhaseUpdate_stepsTaken, postStep]

/-- Field content of the `move_stepper` mutation, common to both profile
paths. -/
theorem moveStepperCmd_fields (s : Stepper) (steps sp : Int) (dir : Bool) (now : Nat) :
    (moveStepperCmd s steps dir sp now).active = true ∧
    (moveStepperCmd s steps dir sp now).paused = false ∧
    (moveStepperCmd s steps dir sp now).homing = false ∧
    (moveStepperCmd s steps dir sp now).direction = dir ∧
    (moveStepperCmd s steps dir sp now).position = s.position ∧
    (moveStepperCmd s steps dir sp now).target
      = s.position + (if dir then steps else -steps) ∧
    (moveStepperCmd s steps dir sp now).speed = sp ∧
    (moveStepperCmd s steps dir sp now).useAcceleration = s.useAcceleration := by
  simp only [moveStepperCmd, startAcceleratedMove]
  split_ifs <;> simp_all

/-- The phase function is monotone along the move. -/
theorem phaseOf_monotone (A D T j l : Int) (hjl : j ≤ l) :
    phaseOf A D T j ≤ phaseOf A D T l := by
  unfold phaseOf
  split_ifs <;> omega

theorem phaseOf_zero (A D T : Int) (hA : 0 < A) : phaseOf A D T 0 = 0 := by
  unfold phaseOf
  rw [if_pos hA]

theorem phaseOf_accelEnd (A D T : Int) (hT : A + D < T) (hD : 0 < D) :
    phaseOf A D T A = 1 := by
  unfold phaseOf
  split_ifs <;> omega

theorem phaseOf_end (A D T : Int) (hA : 0 < A) (hD : 0 < D) (hT : A + D < T) :
    phaseOf A D T T = 2 := by
  unfold phaseOf
  split_ifs <;> omega

/-- The acceleration block advances the phase exactly as `phaseOf`
prescribes and counts the step. -/
theorem accelPhaseUpdate_phase (s : Stepper) (A D T k : Int)
    (hA : 0 < A) (hT : A + D < T)
    (hst : s.stepsTaken = k) (hph : s.movePhase = phaseOf A D T k)
    (hacs : s.accelSteps = A) (hdcs : s.decelSteps = D) (htot : s.totalSteps = T)
    (hk : 0 ≤ k) (hkT : k < T) :
    (accelPhaseUpdate s).movePhase = phaseOf A D T (k + 1) := by
  simp only [accelPhaseUpdate, hst, hph, hacs, hdcs, htot]
  unfold phaseOf
  split_ifs <;> simp_all <;> omega

/-- One unobstructed fired tick advances the accelerated-move invariant by
one step, completing exactly at step `T`. -/
theorem moveInv_step (id : Nat) (p0 : Int) (d : Bool) (A D T k : Int) (s : Stepper)
    (hA : 0 < A) (hD : 0 < D) (hT : A + D < T) (hk : 0 ≤ k) (hkT : k < T)
    (hinv : MoveInv p0 d A D T k s) :
    (k + 1 < T → MoveInv p0 d A D T (k + 1) (updateStepperTick id s (fireInput s)).1 ∧
        (updateStepperTick id s (fireInput s)).2 = [Event.stepPulse id]) ∧
    (k + 1 = T →
        (updateStepperTick id s (fireInput s)).1.position = p0 + dirSign d * T ∧
        (updateStepperTick id s (fireInput s)).1.active = false ∧
        (updateStepperTick id s (fireInput s)).1.movePhase = 2 ∧
        (updateStepperTick id s (fireInput s)).1.stepsTaken = T ∧
        (updateStepperTick id s (fireInput s)).2
          = [Event.stepPulse id, Event.stepperDone id (p0 + dirSign d * T)]) := by
  obtain ⟨hact, hpau, hhom, hua, hdir, hstk, hpos, htgt, htot, hacs, hdcs, hph⟩ := hinv
  rw [updateStepperTick_normal id s (fireInput s) hact hpau hhom
    (checkLimitSwitches_no_trigger id s)]
  simp only []
  rw [if_pos (fireInput_fires s)]
  have hupos : (postAccel s (fireInput s).now).position = p0 + dirSign d * (k + 1) := by
    rw [postAccel_position, hpos, hdir]
    cases d <;> simp [dirSign] <;> ring
  have hutgt : (postAccel s (fireInput s).now).target = p0 + dirSign d * T := by
    rw [postAccel_target, htgt]
  have hustk : (postAccel s (fireInput s).now).stepsTaken = k + 1 := by
    rw [postAccel_stepsTaken, if_pos hua, hstk]
  have huph : (postAccel s (fireInput s).now).movePhase = phaseOf A D T (k + 1) := by
    unfold postAccel
    rw [if_pos hua]
    exact accelPhaseUpdate_phase (postStep s (fireInput s).now) A D T k hA hT
      (by simp [postStep, hstk]) (by simp [postStep, hph]) (by simp [postStep, hacs])
      (by simp [postStep, hdcs]) (by simp [postStep, htot]) hk hkT
  constructor
  · intro hlt
    have hne : ¬((postAccel s (fireInput s).now).position
        = (postAccel s (fireInput s).now).target) := by
      rw [hupos, hutgt]
      cases d <;> simp [dirSign] <;> omega
    rw [if_neg hne]
    refine ⟨⟨?_, ?_, ?_, ?_, ?_, hustk, hupos, hutgt, ?_, ?_, ?_, huph⟩, rfl⟩
    · rw [postAccel_active]; exact hact
    · rw [postAccel_paused]; exact hpau
    · rw [postAccel_homing]; exact hhom
    · rw [postAccel_useAcceleration]; exact hua
    · rw [postAccel_direction]; exact hdir
    · rw [postAccel_totalSteps]; exact htot
    · rw [postAccel_accelSteps]; exact hacs
    · rw [postAccel_decelSteps]; exact hdcs
  · intro heq
    have heqpt : (postAccel s (fireInput s).now).position
        = (postAccel s (fireInput s).now).target := by
      rw [hupos, hutgt, heq]
    rw [if_pos heqpt]
    refine ⟨?_, rfl, ?_, ?_, ?_⟩
    · show (postAccel s (fireInput s).now).position = p0 + dirSign d * T
      rw [hupos, heq]
    · show (postAccel s (fireInput s).now).movePhase = 2
      rw [huph, heq]
      exact phaseOf_end A D T hA hD hT
    · show (postAccel s (fireInput s).now).stepsTaken = T
      rw [hustk, heq]
    · rw [hupos, heq]

/-- Iterating unobstructed fired ticks from a mid-move state reaches step
`k + n`, or the completed state when `k + n = T`. -/
theorem moveInv_run (id : Nat) (p0 : Int) (d : Bool) (A D T : Int)
    (hA : 0 < A) (hD : 0 < D) (hT : A + D < T) :
    ∀ (n : Nat) (k : Int) (s : Stepper), MoveInv p0 d A D T k s → 0 ≤ k → k < T →
      k + (n : Int) ≤ T →
      (k + (n : Int) < T → MoveInv p0 d A D T (k + (n : Int)) (runMove id s n)) ∧
      (k + (n : Int) = T →
        (runMove id s n).position = p0 + dirSign d * T ∧
        (runMove id s n).active = false ∧
        (runMove id s n).movePhase = 2 ∧
        (runMove id s n).stepsTaken = T) := by
  intro n
  induction n with
  | zero =>
    intro k s hinv hk hkT hbound
    refine ⟨fun _ => by simpa [runMove] using hinv, fun heq => absurd heq (by push_cast; omega)⟩
  | succ n ih =>
    intro k s hinv hk hkT hbound
    have hstep := moveInv_step id p0 d A D T k s hA hD hT hk hkT hinv
    have hrun : runMove id s (n + 1)
        = runMove id (updateStepperTick id s (fireInput s)).1 n := rfl
    rcases lt_or_eq_of_le (show k + 1 ≤ T by omega) with hlt | heq
    · have h1 := hstep.1 hlt
      have hrec := ih (k + 1) (updateStepperTick id s (fireInput s)).1 h1.1 (by omega) hlt
        (by push_cast at hbound ⊢; omega)
      have hidx : k + ((n + 1 : Nat) : Int) = (k + 1) + (n : Int) := by push_cast; ring
      rw [hrun, hidx]
      exact hrec
    · have hn0 : n = 0 := by push_cast at hbound; omega
      subst hn0
      rw [hrun]
      constructor
      · intro hcon
        push_cast at hcon
        omega
      · intro _
        have h2 := hstep.2 heq
        exact ⟨h2.1, h2.2.1, h2.2.2.1, h2.2.2.2.1⟩

/-- A tick with neither limit triggered on an axis whose target is not
ahead of it preserves that invariant and completes nothing. -/
theorem noTargetAhead_tick (id : Nat) (s : Stepper) (inp : TickInput)
    (hinv : NoTargetAhead s) (hLA : inp.limitA = false) (hLB : inp.limitB = false) :
    NoTargetAhead (updateStepperTick id s inp).1 ∧
    (∀ p q, Event.stepperDone p q ∉ (updateStepperTick id s inp).2) := by
  obtain ⟨hA, hP, hH, hfwd, hbwd⟩ := hinv
  rw [updateStepperTick_normal id s inp hA hP hH
    (by rw [hLA, hLB]; exact checkLimitSwitches_no_trigger id s)]
  simp only []
  by_cases hf : (inp.now : Int) - (s.lastStepTime : Int) ≥ tickDelay s
  · rw [if_pos hf]
    have hne : ¬((postAccel s inp.now).position = (postAccel s inp.now).target) := by
      rw [postAccel_position, postAccel_target]
      cases hd : s.direction
      · have h2 := hbwd hd
        simp [hd]
        omega
      · have h1 := hfwd hd
        simp [hd]
        omega
    rw [if_neg hne]
    refine ⟨⟨?_, ?_, ?_, ?_, ?_⟩, fun p q => by simp⟩
    · rw [postAccel_active]; exact hA
    · rw [postAccel_paused]; exact hP
    · rw [postAccel_homing]; exact hH
    · intro hd
      rw [postAccel_direction] at hd
      rw [postAccel_position, postAccel_target]
      have := hfwd hd
      simp [hd]
      omega
    · intro hd
      rw [postAccel_direction] at hd
      rw [postAccel_position, postAccel_target]
      have := hbwd hd
      simp [hd]
      omega
  · rw [if_neg hf]
    exact ⟨⟨hA, hP, hH, hfwd, hbwd⟩, fun p q => by simp⟩

/-- Any number of limit-free ticks preserves the invariant and never emits a
move-complete event. -/
theorem noTargetAhead_run (id : Nat) (inps : List TickInput)
    (hin : ∀ inp ∈ inps, inp.limitA = false ∧ inp.limitB = false) :
    ∀ s : Stepper, NoTargetAhead s →
      NoTargetAhead (runTicks id inps s).1 ∧
      (∀ p q, Event.stepperDone p q ∉ (runTicks id inps s).2) := by
  induction inps with
  | nil =>
    intro s h
    exact ⟨h, fun p q => by simp [runTicks]⟩
  | cons inp rest ih =>
    intro s h
    have hh := hin inp (by simp)
    have h1 := noTargetAhead_tick id s inp h hh.1 hh.2
    have h2 := ih (fun i hi => hin i (by simp [hi])) (updateStepperTick id s inp).1 h1.1
    refine ⟨by simpa [runTicks] using h2.1, fun p q => ?_⟩
    simp only [runTicks, List.mem_append]
    push_neg
    exact ⟨h1.2 p q, h2.2 p q⟩

/-! ### Claim theorems -/

/-- C3: the Axis Command Interface does not uniformly validate the axis id.
The `move_stepper` guard accepts the out-of-range id -1 (only `id <
MAX_STEPPERS` is tested, line 237), the `home_stepper` and `init_stepper`
handlers accept every id including 2 (no check at all, so the C code indexes
`steppers[]` out of bounds and mutates memory), while the
`set_stepper_acceleration` family correctly rejects both -1 and 2.  The
failing inputs for the claim are `move_stepper` with id = -1 and
`home_stepper`/`init_stepper` with id = 2 on the 2-axis firmware. -/
theorem axis_id_guard_gaps :
    moveStepperGuard (-1) = true ∧
    homeStepperGuard 2 = true ∧
    initStepperGuard 2 = true ∧
    setAccelerationGuard (-1) = false ∧
    setAccelerationGuard 2 = false := by decide

/-- C4 counterexample: on the axis with acceleration = 0, deceleration = 100
(as left by `set_stepper_deceleration`), a 5-step accelerated move clamps
the phase lengths to accelSteps = 2, decelSteps = 3 — so after clamping
accelSteps is not 0 although acceleration ≤ 0 (and symmetric cases make
decelSteps nonzero with deceleration ≤ 0). -/
theorem accel_decel_clamp_cex :
    accelZeroAxis.acceleration ≤ 0 ∧
    accelZeroAxis.useAcceleration = true ∧
    (startAcceleratedMove accelZeroAxis 5 500).totalSteps = 5 ∧
    (startAcceleratedMove accelZeroAxis 5 500).accelSteps = 2 ∧
    (startAcceleratedMove accelZeroAxis 5 500).decelSteps = 3 := by decide

/-- C4 (amended): immediately after the move-start clamping,
`0 ≤ accelSteps`, `0 ≤ decelSteps` and `accelSteps + decelSteps ≤
totalSteps`; when the unclamped sum exceeds `totalSteps` the two are set to
an even split with `accelSteps + decelSteps = totalSteps`; and the phase
length is 0 for a magnitude ≤ 0 *before* the clamp — hence also after it
whenever the clamp does not fire — but a fired clamp can leave both phase
lengths nonzero regardless of the magnitudes. -/
theorem accel_decel_clamp_bounds (s : Stepper) (targetPos moveSpeed : Int) :
    0 ≤ (startAcceleratedMove s targetPos moveSpeed).accelSteps ∧
    0 ≤ (startAcceleratedMove s targetPos moveSpeed).decelSteps ∧
    (startAcceleratedMove s targetPos moveSpeed).accelSteps
      + (startAcceleratedMove s targetPos moveSpeed).decelSteps
      ≤ (startAcceleratedMove s targetPos moveSpeed).totalSteps ∧
    (calculateAccelSteps s.acceleration |targetPos - s.position|
        + calculateDecelSteps s.deceleration |targetPos - s.position|
        > |targetPos - s.position| →
      (startAcceleratedMove s targetPos moveSpeed).accelSteps
          = |targetPos - s.position| / 2 ∧
      (startAcceleratedMove s targetPos moveSpeed).decelSteps
          = |targetPos - s.position| - |targetPos - s.position| / 2 ∧
      (startAcceleratedMove s targetPos moveSpeed).accelSteps
          + (startAcceleratedMove s targetPos moveSpeed).decelSteps
          = (startAcceleratedMove s targetPos moveSpeed).totalSteps) ∧
    (s.acceleration ≤ 0 →
      calculateAccelSteps s.acceleration |targetPos - s.position| = 0) ∧
    (s.deceleration ≤ 0 →
      calculateDecelSteps s.deceleration |targetPos - s.position| = 0) ∧
    (calculateAccelSteps s.acceleration |targetPos - s.position|
        + calculateDecelSteps s.deceleration |targetPos - s.position|
        ≤ |targetPos - s.position| →
      (s.acceleration ≤ 0 →
        (startAcceleratedMove s targetPos moveSpeed).accelSteps = 0) ∧
      (s.deceleration ≤ 0 →
        (startAcceleratedMove s targetPos moveSpeed).decelSteps = 0)) := by
  have habs : 0 ≤ |targetPos - s.position| := abs_nonneg _
  have hA0 := calculateAccelSteps_nonneg s.acceleration |targetPos - s.position|
  have hD0 := calculateDecelSteps_nonneg s.deceleration |targetPos - s.position|
  have hAz : s.acceleration ≤ 0 →
      calculateAccelSteps s.acceleration |targetPos - s.position| = 0 := by
    intro h
    unfold calculateAccelSteps
    simp [h]
  have hDz : s.deceleration ≤ 0 →
      calculateDecelSteps s.deceleration |targetPos - s.position| = 0 := by
    intro h
    unfold calculateDecelSteps
    simp [h]
  simp only [startAcceleratedMove]
  split_ifs with hcl
  · refine ⟨by omega, by omega, by omega, fun _ => ⟨rfl, rfl, by omega⟩, hAz, hDz, ?_⟩
    exact fun hle => absurd hcl (not_lt.mpr hle)
  · refine ⟨hA0, hD0, by omega, fun h => absurd h hcl, hAz, hDz, ?_⟩
    exact fun _ => ⟨fun h => hAz h, fun h => hDz h⟩

/-- C4 witness: the amended theorem applied to the clamping counterexample
input (acceleration 0, deceleration 100, 5-step move). -/
theorem accel_decel_clamp_bounds_witness :
    (startAcceleratedMove accelZeroAxis 5 500).accelSteps
        = |5 - accelZeroAxis.position| / 2 ∧
    calculateAccelSteps accelZeroAxis.acceleration |5 - accelZeroAxis.position| = 0 := by
  have h := accel_decel_clamp_bounds accelZeroAxis 5 500
  exact ⟨(h.2.2.2.1 (by decide)).1, h.2.2.2.2.1 (by decide)⟩

/-- C5 counterexample: the constant-speed path of `move_stepper` copies the
commanded speed into `currentDelay` with no clamping, so a command with
speed 100 on an axis whose bounds are [500, 5000] leaves `currentDelay`
strictly below `minDelay`. -/
theorem currentDelay_bounds_cex :
    (moveStepperCmd initialStepper 100 true 100 0).currentDelay = 100 ∧
    (moveStepperCmd initialStepper 100 true 100 0).minDelay = 500 ∧
    (moveStepperCmd initialStepper 100 true 100 0).currentDelay
      < (moveStepperCmd initialStepper 100 true 100 0).minDelay := by decide

/-- C5 (amended): provided the commanded speed lies within
`[minDelay, maxDelay]`, the Profile Calculator keeps the delay within the
bounds — `calculateAccelDelay`/`calculateDecelDelay` (as called with
endpoints `maxDelay` and `speed`) return values in `[minDelay, maxDelay]`
for any step index inside the phase — and the `move_stepper` and
`home_stepper` mutations of `currentDelay` also land within the bounds.
Without that precondition on the speed the bounds fail (see the
counterexample); no clamping exists in the code. -/
theorem currentDelay_bounds_under_valid_speed (s : Stepper) (k n : Int)
    (steps sp : Int) (dir : Bool) (now : Nat)
    (hk : 0 ≤ k) (hkn : k ≤ n)
    (hlo : s.minDelay ≤ sp) (hhi : sp ≤ s.maxDelay) :
    (s.minDelay ≤ calculateAccelDelay k n s.maxDelay sp ∧
      calculateAccelDelay k n s.maxDelay sp ≤ s.maxDelay) ∧
    (s.minDelay ≤ calculateDecelDelay k n sp s.maxDelay ∧
      calculateDecelDelay k n sp s.maxDelay ≤ s.maxDelay) ∧
    (s.minDelay ≤ (moveStepperCmd s steps dir sp now).currentDelay ∧
      (moveStepperCmd s steps dir sp now).currentDelay ≤ s.maxDelay) ∧
    (s.minDelay ≤ (homeStepperCmd s (some sp) now).currentDelay ∧
      (homeStepperCmd s (some sp) now).currentDelay ≤ s.maxDelay) := by
  refine ⟨calculateAccelDelay_bounds k n s.maxDelay sp s.minDelay s.maxDelay
      hk hkn hhi hlo (le_refl _),
    calculateDecelDelay_bounds k n sp s.maxDelay s.minDelay s.maxDelay
      hk hkn hhi hlo (le_refl _), ?_, ?_⟩
  · simp only [moveStepperCmd, startAcceleratedMove]
    split_ifs <;> simp_all <;> omega
  · simp [homeStepperCmd]
    omega

/-- C5 witness: the amended theorem at the startup bounds [500, 5000] with
a commanded speed of 1000 and step index 3 of a 10-step phase. -/
theorem currentDelay_bounds_under_valid_speed_witness :
    (initialStepper.minDelay ≤ calculateAccelDelay 3 10 initialStepper.maxDelay 1000 ∧
      calculateAccelDelay 3 10 initialStepper.maxDelay 1000 ≤ initialStepper.maxDelay) ∧
    (initialStepper.minDelay ≤ (moveStepperCmd initialStepper 100 true 1000 0).currentDelay ∧
      (moveStepperCmd initialStepper 100 true 1000 0).currentDelay ≤ initialStepper.maxDelay) := by
  have h := currentDelay_bounds_under_valid_speed initialStepper 3 10 100 1000 true 0
    (by decide) (by decide) (by decide) (by decide)
  exact ⟨h.1, h.2.2.1⟩

/-- C7 counterexample: nothing constrains the commanded speed to be at most
`maxDelay`; with `maxDelay = 5000` and commanded speed 6000 the ACCEL
interpolation (called as `calculateAccelDelay stepsTaken accelSteps maxDelay
speed`) is increasing: the delay after step 1 exceeds the delay after
step 0 of a 10-step acceleration phase. -/
theorem delay_monotonicity_cex :
    calculateAccelDelay 0 10 5000 6000 = 5000 ∧
    calculateAccelDelay 1 10 5000 6000 = 5100 ∧
    calculateAccelDelay 0 10 5000 6000 < calculateAccelDelay 1 10 5000 6000 := by decide

/-- C7 (amended): provided the commanded speed is at most `maxDelay` (the
intended calibration, `speed` fast and `maxDelay` slow), the delays the
Profile Calculator produces are monotone within each phase: during ACCEL
(`calculateAccelDelay` from `maxDelay` down to `speed`) successive delays
are non-increasing; during DECEL (`calculateDecelDelay` from `speed` up to
`maxDelay`) non-decreasing; and during CONST the scheduler never rewrites
`currentDelay` (phase 1 of the update block leaves it unchanged), which the
entry transition has set to `speed`. -/
theorem delay_monotonicity (s : Stepper) (k l n : Int)
    (hk : 0 ≤ k) (hkl : k ≤ l) (hn : 0 ≤ n)
    (hsp : s.speed ≤ s.maxDelay) :
    calculateAccelDelay l n s.maxDelay s.speed
      ≤ calculateAccelDelay k n s.maxDelay s.speed ∧
    calculateDecelDelay k n s.speed s.maxDelay
      ≤ calculateDecelDelay l n s.speed s.maxDelay ∧
    (s.movePhase = 0 → ¬ s.stepsTaken + 1 < s.accelSteps →
      (accelPhaseUpdate s).movePhase = 1 ∧ (accelPhaseUpdate s).currentDelay = s.speed) ∧
    (s.movePhase = 1 → (accelPhaseUpdate s).currentDelay = s.currentDelay) := by
  refine ⟨calculateAccelDelay_antitone k l n s.maxDelay s.speed hk hkl hsp hn,
    calculateDecelDelay_monotone k l n s.speed s.maxDelay hk hkl hsp hn, ?_, ?_⟩
  · intro h0 hge
    simp [accelPhaseUpdate, h0, hge]
  · intro h1
    simp [accelPhaseUpdate, h1]
    split_ifs <;> rfl

/-- C7 witness: the amended theorem at the startup configuration (speed 500
≤ maxDelay 5000), step indices 2 ≤ 7 of a 10-step phase. -/
theorem delay_monotonicity_witness :
    calculateAccelDelay 7 10 movingAxis.maxDelay movingAxis.speed
      ≤ calculateAccelDelay 2 10 movingAxis.maxDelay movingAxis.speed ∧
    calculateDecelDelay 2 10 movingAxis.speed movingAxis.maxDelay
      ≤ calculateDecelDelay 7 10 movingAxis.speed movingAxis.maxDelay := by
  have h := delay_monotonicity movingAxis 2 7 10 (by decide) (by decide)
    (by decide) (by decide)
  exact ⟨h.1, h.2.1⟩

/-- C8: both setters recompute `useAcceleration` as
`acceleration > 0 ∨ deceleration > 0`; after setting both magnitudes to 0,
`useAcceleration` is false and the next `move_stepper` takes the
constant-speed path exactly — `currentDelay` is the commanded speed and none
of the accelerated-profile fields (`totalSteps`, `stepsTaken`, `accelSteps`,
`decelSteps`, `movePhase`) is touched. -/
theorem useAcceleration_recompute_and_constant_path (s : Stepper)
    (a d steps sp : Int) (dir : Bool) (now : Nat) :
    ((setAccelerationCmd s a).useAcceleration = true ↔ (a > 0 ∨ s.deceleration > 0)) ∧
    ((setDecelerationCmd s d).useAcceleration = true ↔ (s.acceleration > 0 ∨ d > 0)) ∧
    (setDecelerationCmd (setAccelerationCmd s 0) 0).useAcceleration = false ∧
    ((moveStepperCmd (setDecelerationCmd (setAccelerationCmd s 0) 0) steps dir sp now).active
        = true ∧
      (moveStepperCmd (setDecelerationCmd (setAccelerationCmd s 0) 0) steps dir sp now).paused
        = false ∧
      (moveStepperCmd (setDecelerationCmd (setAccelerationCmd s 0) 0) steps dir sp now).currentDelay
        = sp ∧
      (moveStepperCmd (setDecelerationCmd (setAccelerationCmd s 0) 0) steps dir sp now).totalSteps
        = s.totalSteps ∧
      (moveStepperCmd (setDecelerationCmd (setAccelerationCmd s 0) 0) steps dir sp now).stepsTaken
        = s.stepsTaken ∧
      (moveStepperCmd (setDecelerationCmd (setAccelerationCmd s 0) 0) steps dir sp now).accelSteps
        = s.accelSteps ∧
      (moveStepperCmd (setDecelerationCmd (setAccelerationCmd s 0) 0) steps dir sp now).decelSteps
        = s.decelSteps ∧
      (moveStepperCmd (setDecelerationCmd (setAccelerationCmd s 0) 0) steps dir sp now).movePhase
        = s.movePhase) := by
  refine ⟨by simp [setAccelerationCmd], by simp [setDecelerationCmd], ?_, ?_⟩
  · simp [setAccelerationCmd, setDecelerationCmd]
  · simp [moveStepperCmd, setAccelerationCmd, setDecelerationCmd]

/-- C1: for an active, unpaused, non-homing axis whose direction-guarding
limit switch reads triggered at the start of a tick (limit A when moving
forward, limit B when backward), that tick deactivates the axis, drives the
enable line HIGH (disabled) if configured, emits exactly one limit-hit
event carrying the axis id, the triggered limit's name and the current
position, and skips the axis for the rest of the tick: no pulse, no
position change, no timing or profile update. -/
theorem limit_interlock_stops_axis_in_one_tick (id : Nat) (s : Stepper) (inp : TickInput)
    (hA : s.active = true) (hP : s.paused = false) (hH : s.homing = false)
    (hL : (if s.direction then inp.limitA else inp.limitB) = true) :
    (updateStepperTick id s inp).1.active = false ∧
    (s.enableConfigured = true → (updateStepperTick id s inp).1.enableHigh = true) ∧
    (updateStepperTick id s inp).2
      = [Event.limitHit id (if s.direction then "limit_a" else "limit_b") s.position] ∧
    (updateStepperTick id s inp).1.position = s.position ∧
    (updateStepperTick id s inp).1.lastStepTime = s.lastStepTime ∧
    (updateStepperTick id s inp).1.stepsTaken = s.stepsTaken := by
  have hstep : checkLimitSwitches id s inp.limitA inp.limitB
      = ({ s with active := false,
                  enableHigh := if s.enableConfigured then true else s.enableHigh },
         [Event.limitHit id (if s.direction then "limit_a" else "limit_b") s.position]) := by
    cases hd : s.direction
    · have hLB : inp.limitB = true := by simpa [hd] using hL
      unfold checkLimitSwitches
      rw [if_neg (by simp [hd]), if_pos (by simp [hd, hLB])]
      simp [hd]
    · have hLA : inp.limitA = true := by simpa [hd] using hL
      unfold checkLimitSwitches
      rw [if_pos (by simp [hd, hLA])]
      simp [hd]
  rw [updateStepperTick_limit_stop id s inp hA hP hH (by rw [hstep]), hstep]
  refine ⟨rfl, fun h => by simp [h], rfl, rfl, rfl, rfl⟩

/-- C1 witness: forward move on `movingAxis` with limit A triggered. -/
theorem limit_interlock_stops_axis_in_one_tick_witness :
    (updateStepperTick 0 movingAxis limitAInput).1.active = false ∧
    (updateStepperTick 0 movingAxis limitAInput).2
      = [Event.limitHit 0 (if movingAxis.direction then "limit_a" else "limit_b")
          movingAxis.position] := by
  have h := limit_interlock_stops_axis_in_one_tick 0 movingAxis
    limitAInput
    (by decide) (by decide) (by decide) (by decide)
  exact ⟨h.1, h.2.2.1⟩

/-- C2: `home_stepper` arms a homing move with `currentDelay` equal to the
commanded (or default 1000) speed, and for any homing axis whose
`currentDelay` equals its `speed` (which homing ticks preserve, since the
acceleration block is skipped while homing), the tick compares the elapsed
time against that constant `speed`; and the tick on which the home switch
reads triggered forces `position` to 0, clears `homing`, clears `active`,
drives the enable line HIGH if configured, and emits one move-complete
event (position 0) — regardless of the starting position or direction. -/
theorem homing_completes_at_zero_with_constant_delay :
    (∀ (s : Stepper) (speedArg : Option Int) (now : Nat),
      (homeStepperCmd s speedArg now).homing = true ∧
      (homeStepperCmd s speedArg now).active = true ∧
      (homeStepperCmd s speedArg now).paused = false ∧
      (homeStepperCmd s speedArg now).currentDelay = (homeStepperCmd s speedArg now).speed ∧
      (homeStepperCmd s speedArg now).speed = speedArg.getD 1000) ∧
    (∀ (id : Nat) (t : Stepper) (inp : TickInput),
      t.homing = true → t.currentDelay = t.speed →
      tickDelay t = t.speed ∧
      ((updateStepperTick id t inp).1.homing = true →
        (updateStepperTick id t inp).1.currentDelay = (updateStepperTick id t inp).1.speed ∧
        (updateStepperTick id t inp).1.speed = t.speed) ∧
      ((updateStepperTick id t inp).1.homing = false →
        (updateStepperTick id t inp).1.position = 0 ∧
        (updateStepperTick id t inp).1.active = false ∧
        (t.enableConfigured = true → (updateStepperTick id t inp).1.enableHigh = true) ∧
        (updateStepperTick id t inp).2 = [Event.stepPulse id, Event.stepperDone id 0])) := by
  constructor
  · intro s speedArg now
    simp [homeStepperCmd]
  · intro id t inp hh hcd
    refine ⟨by simp [tickDelay, hcd], ?_⟩
    by_cases hact : t.active = false ∨ t.paused = true
    · rw [updateStepperTick_inactive id t inp hact]
      exact ⟨fun _ => ⟨hcd, rfl⟩,
        fun hfalse => absurd hh (by rw [show t.homing = false from hfalse]; simp)⟩
    · push_neg at hact
      have hA : t.active = true := by
        rcases hact with ⟨h1, _⟩
        revert h1; cases t.active <;> simp
      have hP : t.paused = false := by
        rcases hact with ⟨_, h2⟩
        revert h2; cases t.paused <;> simp
      rw [updateStepperTick_homing id t inp hA hP hh]
      by_cases hf : (inp.now : Int) - (t.lastStepTime : Int) ≥ tickDelay t
      · rw [if_pos hf]
        by_cases hsw : inp.homeSw = true
        · rw [if_pos hsw]
          refine ⟨fun hcontra => absurd hcontra (by simp), fun _ => ⟨rfl, rfl, ?_, rfl⟩⟩
          intro h
          simp [h]
        · rw [if_neg hsw]
          refine ⟨fun _ => ⟨?_, rfl⟩, fun hcontra => ?_⟩
          · simpa [postStep] using hcd
          · rw [show (postStep t inp.now).homing = t.homing from rfl, hh] at hcontra
            exact absurd hcontra (by simp)
      · rw [if_neg hf]
        exact ⟨fun _ => ⟨hcd, rfl⟩,
          fun hfalse => absurd hh (by rw [show t.homing = false from hfalse]; simp)⟩

/-- C2 witness: the homing axis at position 5 completes at the tick where
the home switch reads triggered. -/
theorem homing_completes_at_zero_with_constant_delay_witness :
    tickDelay homingAxis = homingAxis.speed ∧
    (updateStepperTick 0 homingAxis homeInput).1.position = 0 ∧
    (updateStepperTick 0 homingAxis homeInput).1.active = false := by
  have h := homing_completes_at_zero_with_constant_delay.2 0 homingAxis
    homeInput (by decide) (by decide)
  exact ⟨h.1, (h.2.2 (by decide)).1, (h.2.2 (by decide)).2.1⟩

/-- C9 counterexample: on a constant-speed move (useAcceleration false) a
fired tick changes `position` by one step and emits a pulse while
`stepsTaken` stays unchanged — the claimed synchronization with
`stepsTaken++` fails; and a homing-completion tick changes `position` from
5 to 0, not by one step. -/
theorem position_step_sync_cex :
    ((updateStepperTick 0 movingAxis quietInput).1.position = movingAxis.position + 1 ∧
     (updateStepperTick 0 movingAxis quietInput).1.stepsTaken = movingAxis.stepsTaken ∧
     (updateStepperTick 0 movingAxis quietInput).2 = [Event.stepPulse 0]) ∧
    (homingAxis.position = 5 ∧
     (updateStepperTick 0 homingAxis homeInput).1.position = 0) := by decide

/-- C9 (amended): per tick, `position` changes only with an emitted step
pulse; with a pulse on a non-homing axis it changes by exactly `dirSign`
(direction-signed one step) and `stepsTaken` increments in the same tick
exactly when `useAcceleration` is set (constant-speed moves step without
counting); with a pulse on a homing axis `stepsTaken` never changes and the
position moves one signed step unless the home switch reads triggered, in
which case it is forced to 0. -/
theorem position_change_characterization (id : Nat) (s : Stepper) (inp : TickInput) :
    (Event.stepPulse id ∉ (updateStepperTick id s inp).2 →
      (updateStepperTick id s inp).1.position = s.position ∧
      (updateStepperTick id s inp).1.stepsTaken = s.stepsTaken) ∧
    (Event.stepPulse id ∈ (updateStepperTick id s inp).2 → s.homing = false →
      (updateStepperTick id s inp).1.position = s.position + dirSign s.direction ∧
      (updateStepperTick id s inp).1.stepsTaken
        = (if s.useAcceleration = true then s.stepsTaken + 1 else s.stepsTaken)) ∧
    (Event.stepPulse id ∈ (updateStepperTick id s inp).2 → s.homing = true →
      (inp.homeSw = true → (updateStepperTick id s inp).1.position = 0) ∧
      (inp.homeSw = false →
        (updateStepperTick id s inp).1.position = s.position + dirSign s.direction) ∧
      (updateStepperTick id s inp).1.stepsTaken = s.stepsTaken) := by
  by_cases hact : s.active = false ∨ s.paused = true
  · rw [updateStepperTick_inactive id s inp hact]
    exact ⟨fun _ => ⟨rfl, rfl⟩, fun hmem => absurd hmem (by simp),
      fun hmem => absurd hmem (by simp)⟩
  · push_neg at hact
    have hA : s.active = true := by
      rcases hact with ⟨h1, _⟩; revert h1; cases s.active <;> simp
    have hP : s.paused = false := by
      rcases hact with ⟨_, h2⟩; revert h2; cases s.paused <;> simp
    by_cases hh : s.homing = true
    · rw [updateStepperTick_homing id s inp hA hP hh]
      by_cases hf : (inp.now : Int) - (s.lastStepTime : Int) ≥ tickDelay s
      · rw [if_pos hf]
        by_cases hsw : inp.homeSw = true
        · rw [if_pos hsw]
          exact ⟨fun hnot => absurd (by simp) hnot,
            fun _ hfalse => absurd hh (by simp [hfalse]),
            fun _ _ => ⟨fun _ => rfl, fun hfs => absurd hsw (by simp [hfs]), rfl⟩⟩
        · rw [if_neg hsw]
          have hsw' : inp.homeSw = false := by revert hsw; cases inp.homeSw <;> simp
          refine ⟨fun hnot => absurd (by simp) hnot,
            fun _ hfalse => absurd hh (by simp [hfalse]),
            fun _ _ => ⟨fun ht => absurd ht (by simp [hsw']), fun _ => ?_, rfl⟩⟩
          simp [postStep, dirSign]
      · rw [if_neg hf]
        exact ⟨fun _ => ⟨rfl, rfl⟩, fun hmem => absurd hmem (by simp),
          fun hmem => absurd hmem (by simp)⟩
    · have hh' : s.homing = false := by revert hh; cases s.homing <;> simp
      rcases checkLimitSwitches_cases id s inp.limitA inp.limitB with hc | ⟨hc, _, _⟩ | ⟨hc, _, _⟩
      · rw [updateStepperTick_normal id s inp hA hP hh' hc]
        simp only []
        by_cases hf : (inp.now : Int) - (s.lastStepTime : Int) ≥ tickDelay s
        · rw [if_pos hf]
          have hpos : (postAccel s inp.now).position = s.position + dirSign s.direction := by
            unfold postAccel
            split_ifs <;> simp [accelPhaseUpdate_position, postStep, dirSign]
          have hstk : (postAccel s inp.now).stepsTaken
              = (if s.useAcceleration = true then s.stepsTaken + 1 else s.stepsTaken) := by
            unfold postAccel
            split_ifs with hu <;> simp [accelPhaseUpdate_stepsTaken, postStep, hu]
          by_cases hdone : (postAccel s inp.now).position = (postAccel s inp.now).target
          · rw [if_pos hdone]
            exact ⟨fun hnot => absurd (by simp) hnot, fun _ _ => ⟨hpos, hstk⟩,
              fun _ hfalse => absurd hh' (by simp [hfalse])⟩
          · rw [if_neg hdone]
            exact ⟨fun hnot => absurd (by simp) hnot, fun _ _ => ⟨hpos, hstk⟩,
              fun _ hfalse => absurd hh' (by simp [hfalse])⟩
        · rw [if_neg hf]
          exact ⟨fun _ => ⟨rfl, rfl⟩, fun hmem => absurd hmem (by simp),
            fun hmem => absurd hmem (by simp)⟩
      · rw [updateStepperTick_limit_stop id s inp hA hP hh' (by rw [hc]), hc]
        exact ⟨fun _ => ⟨rfl, rfl⟩, fun hmem => absurd hmem (by simp),
          fun hmem => absurd hmem (by simp)⟩
      · rw [updateStepperTick_limit_stop id s inp hA hP hh' (by rw [hc]), hc]
        exact ⟨fun _ => ⟨rfl, rfl⟩, fun hmem => absurd hmem (by simp),
          fun hmem => absurd hmem (by simp)⟩

/-- C9 witness: the amended characterization applied to the constant-speed
axis at a fired tick. -/
theorem position_change_characterization_witness :
    (updateStepperTick 0 movingAxis quietInput).1.position = movingAxis.position + dirSign movingAxis.direction ∧
    (updateStepperTick 0 movingAxis quietInput).1.stepsTaken
      = (if movingAxis.useAcceleration = true then movingAxis.stepsTaken + 1
         else movingAxis.stepsTaken) := by
  have h := position_change_characterization 0 movingAxis
    quietInput
  exact h.2.1 (by decide) (by decide)

/-- The accelerated path of `move_stepper` establishes the move invariant at
step 0 (nonnegative commanded step count, nonempty ACCEL phase), with
`totalSteps` equal to the commanded step count. -/
theorem moveStepperCmd_startsInv (s : Stepper) (steps sp : Int) (dir : Bool) (now : Nat)
    (hacc : s.useAcceleration = true) (hpos : 0 < s.acceleration ∨ 0 < s.deceleration)
    (hsteps : 0 ≤ steps)
    (hA : 0 < (moveStepperCmd s steps dir sp now).accelSteps) :
    MoveInv s.position dir (moveStepperCmd s steps dir sp now).accelSteps
      (moveStepperCmd s steps dir sp now).decelSteps steps 0
      (moveStepperCmd s steps dir sp now) ∧
    (moveStepperCmd s steps dir sp now).totalSteps = steps := by
  have habs : |(if dir then steps else -steps)| = steps := by
    cases dir <;> simp [abs_of_nonneg hsteps]
  unfold MoveInv
  simp only [moveStepperCmd, startAcceleratedMove] at hA ⊢
  split_ifs at hA ⊢ with hg <;>
    simp_all [phaseOf, dirSign, abs_of_nonneg hsteps] <;> omega

/-- C6 counterexample: a 1-step accelerated move (acceleration 500,
deceleration 500, `useAcceleration` set) clamps the phase lengths to
(0, 1), starts directly in CONST (phase 1), and runs to completion in one
fired tick with a move-complete event, ending in phase 2 — so this
accelerated move completes without the phase ever being ACCEL, refuting the
unconditional "passes through ACCEL, then CONST, then DECEL". -/
theorem accelerated_move_phase_order_cex :
    (moveStepperCmd bothAccelAxis 1 true 500 0).useAcceleration = true ∧
    (moveStepperCmd bothAccelAxis 1 true 500 0).active = true ∧
    (moveStepperCmd bothAccelAxis 1 true 500 0).accelSteps = 0 ∧
    (moveStepperCmd bothAccelAxis 1 true 500 0).movePhase = 1 ∧
    (updateStepperTick 0 (moveStepperCmd bothAccelAxis 1 true 500 0)
        (fireInput (moveStepperCmd bothAccelAxis 1 true 500 0))).1.active = false ∧
    (updateStepperTick 0 (moveStepperCmd bothAccelAxis 1 true 500 0)
        (fireInput (moveStepperCmd bothAccelAxis 1 true 500 0))).2
      = [Event.stepPulse 0, Event.stepperDone 0 1] ∧
    (updateStepperTick 0 (moveStepperCmd bothAccelAxis 1 true 500 0)
        (fireInput (moveStepperCmd bothAccelAxis 1 true 500 0))).1.movePhase = 2 := by
  decide

/-- C6 (amended): for an accelerated move whose clamped phase lengths
satisfy `0 < accelSteps`, `0 < decelSteps` and
`accelSteps + decelSteps < totalSteps` (so all three phases are nonempty —
short moves can clamp ACCEL away entirely, see the counterexample), an
unobstructed run passes through ACCEL (phase 0 at step 0), CONST (phase 1
from step `accelSteps`) and DECEL (phase 2 at the end) in that order — the
phase is the monotone function `phaseOf` of the step count — `stepsTaken`
increases by exactly one per fired tick, and the move completes after
`totalSteps` steps, deactivated at position `start + steps` signed per the
commanded direction. -/
theorem accelerated_move_profile (id : Nat) (s : Stepper) (steps sp : Int)
    (dir : Bool) (now : Nat)
    (hacc : s.useAcceleration = true) (hpos : 0 < s.acceleration ∨ 0 < s.deceleration)
    (hsteps : 0 ≤ steps)
    (hA : 0 < (moveStepperCmd s steps dir sp now).accelSteps)
    (hD : 0 < (moveStepperCmd s steps dir sp now).decelSteps)
    (hAD : (moveStepperCmd s steps dir sp now).accelSteps
        + (moveStepperCmd s steps dir sp now).decelSteps < steps) :
    (∀ n : Nat, (n : Int) < steps →
      (runMove id (moveStepperCmd s steps dir sp now) n).stepsTaken = (n : Int) ∧
      (runMove id (moveStepperCmd s steps dir sp now) n).movePhase
        = phaseOf (moveStepperCmd s steps dir sp now).accelSteps
            (moveStepperCmd s steps dir sp now).decelSteps steps (n : Int) ∧
      (runMove id (moveStepperCmd s steps dir sp now) n).active = true ∧
      (runMove id (moveStepperCmd s steps dir sp now) (n + 1)).stepsTaken = (n : Int) + 1) ∧
    (∀ j l : Int, j ≤ l →
      phaseOf (moveStepperCmd s steps dir sp now).accelSteps
          (moveStepperCmd s steps dir sp now).decelSteps steps j
        ≤ phaseOf (moveStepperCmd s steps dir sp now).accelSteps
            (moveStepperCmd s steps dir sp now).decelSteps steps l) ∧
    phaseOf (moveStepperCmd s steps dir sp now).accelSteps
        (moveStepperCmd s steps dir sp now).decelSteps steps 0 = 0 ∧
    phaseOf (moveStepperCmd s steps dir sp now).accelSteps
        (moveStepperCmd s steps dir sp now).decelSteps steps
        (moveStepperCmd s steps dir sp now).accelSteps = 1 ∧
    phaseOf (moveStepperCmd s steps dir sp now).accelSteps
        (moveStepperCmd s steps dir sp now).decelSteps steps steps = 2 ∧
    (runMove id (moveStepperCmd s steps dir sp now) steps.toNat).stepsTaken = steps ∧
    (runMove id (moveStepperCmd s steps dir sp now) steps.toNat).movePhase = 2 ∧
    (runMove id (moveStepperCmd s steps dir sp now) steps.toNat).active = false ∧
    (runMove id (moveStepperCmd s steps dir sp now) steps.toNat).position
      = s.position + (if dir then steps else -steps) := by
  obtain ⟨hinv0, htot⟩ := moveStepperCmd_startsInv s steps sp dir now hacc hpos hsteps hA
  have hrun := moveInv_run id s.position dir
    (moveStepperCmd s steps dir sp now).accelSteps
    (moveStepperCmd s steps dir sp now).decelSteps steps hA hD hAD
  have hpos0 : (0 : Int) < steps := by omega
  have hposdir : s.position + dirSign dir * steps
      = s.position + (if dir then steps else -steps) := by
    cases dir <;> simp [dirSign]
  refine ⟨?_, ?_, ?_, ?_, ?_, ?_, ?_, ?_, ?_⟩
  · intro n hn
    have h1 := hrun n 0 (moveStepperCmd s steps dir sp now) hinv0 (le_refl 0) hpos0
      (by omega)
    have hinvn := h1.1 (by omega)
    obtain ⟨_, _, _, _, _, hstk, _, _, _, _, _, hph⟩ := hinvn
    have h2 := hrun (n + 1) 0 (moveStepperCmd s steps dir sp now) hinv0 (le_refl 0) hpos0
      (by push_cast; omega)
    refine ⟨by simpa using hstk, by simpa using hph, ?_, ?_⟩
    · have := h1.1 (by omega)
      obtain ⟨hact, _⟩ := this
      exact hact
    · rcases lt_or_eq_of_le (show (0 : Int) + ((n + 1 : Nat) : Int) ≤ steps by push_cast; omega)
        with hlt | heq
      · have hinvn1 := h2.1 hlt
        obtain ⟨_, _, _, _, _, hstk1, _⟩ := hinvn1
        rw [hstk1]
        push_cast
        ring
      · have hfin := h2.2 heq
        rw [hfin.2.2.2]
        push_cast at heq
        omega
  · exact fun j l hjl => phaseOf_monotone _ _ _ j l hjl
  · exact phaseOf_zero _ _ _ hA
  · exact phaseOf_accelEnd _ _ _ hAD hD
  · exact phaseOf_end _ _ _ hA hD hAD
  · have h := hrun steps.toNat 0 (moveStepperCmd s steps dir sp now) hinv0 (le_refl 0) hpos0
      (by rw [Int.toNat_of_nonneg hsteps]; omega)
    exact (h.2 (by rw [Int.toNat_of_nonneg hsteps]; omega)).2.2.2
  · have h := hrun steps.toNat 0 (moveStepperCmd s steps dir sp now) hinv0 (le_refl 0) hpos0
      (by rw [Int.toNat_of_nonneg hsteps]; omega)
    exact (h.2 (by rw [Int.toNat_of_nonneg hsteps]; omega)).2.2.1
  · have h := hrun steps.toNat 0 (moveStepperCmd s steps dir sp now) hinv0 (le_refl 0) hpos0
      (by rw [Int.toNat_of_nonneg hsteps]; omega)
    exact (h.2 (by rw [Int.toNat_of_nonneg hsteps]; omega)).2.1
  · have h := hrun steps.toNat 0 (moveStepperCmd s steps dir sp now) hinv0 (le_refl 0) hpos0
      (by rw [Int.toNat_of_nonneg hsteps]; omega)
    rw [(h.2 (by rw [Int.toNat_of_nonneg hsteps]; omega)).1]
    exact hposdir

/-- C6 witness: the amended theorem on a 100-step forward move with both
ramp magnitudes 500 (clamped phase lengths 40/40). -/
theorem accelerated_move_profile_witness :
    (runMove 0 (moveStepperCmd bothAccelAxis 100 true 500 0) (100 : Int).toNat).active
      = false ∧
    (runMove 0 (moveStepperCmd bothAccelAxis 100 true 500 0) (100 : Int).toNat).position
      = bothAccelAxis.position + (if true then (100 : Int) else -(100 : Int)) := by
  have h := accelerated_move_profile 0 bothAccelAxis 100 500 true 0 (by decide) (by decide)
    (by decide) (by decide) (by decide) (by decide)
  exact ⟨h.2.2.2.2.2.2.2.1, h.2.2.2.2.2.2.2.2⟩

/-- C10: a `move_stepper` command with steps = 0 on a valid axis id arms the
axis (active becomes true) with the new target equal to the current
position; because the scheduler emits the pulse and moves `position` before
testing `position == target` (lines 403-446), the first fired tick steps
past the target, and over any sequence of ticks in which no limit switch
reads triggered the axis stays active and no move-complete event is ever
emitted. -/
theorem zero_step_move_never_completes (id : Nat) (s : Stepper) (dir : Bool)
    (sp : Int) (now : Nat) (inps : List TickInput)
    (hin : ∀ inp ∈ inps, inp.limitA = false ∧ inp.limitB = false) :
    (moveStepperCmd s 0 dir sp now).active = true ∧
    (moveStepperCmd s 0 dir sp now).target = (moveStepperCmd s 0 dir sp now).position ∧
    (runTicks id inps (moveStepperCmd s 0 dir sp now)).1.active = true ∧
    (∀ p q, Event.stepperDone p q ∉ (runTicks id inps (moveStepperCmd s 0 dir sp now)).2) := by
  obtain ⟨hact, hpau, hhom, hdir, hpos, htgt, _, _⟩ :=
    moveStepperCmd_fields s 0 sp dir now
  have htgt0 : (moveStepperCmd s 0 dir sp now).target
      = (moveStepperCmd s 0 dir sp now).position := by
    rw [htgt, hpos]
    cases dir <;> simp
  have hinv : NoTargetAhead (moveStepperCmd s 0 dir sp now) := by
    refine ⟨hact, hpau, hhom, ?_, ?_⟩
    · intro _
      rw [htgt0]
    · intro _
      rw [htgt0]
  have h := noTargetAhead_run id inps hin (moveStepperCmd s 0 dir sp now) hinv
  exact ⟨hact, htgt0, h.1.1, h.2⟩

/-- C10 witness: three fired quiet ticks after a zero-step move leave the
axis active. -/
theorem zero_step_move_never_completes_witness :
    (moveStepperCmd initialStepper 0 true 500 0).active = true ∧
    (runTicks 0 [quietInput, quietInput, quietInput]
        (moveStepperCmd initialStepper 0 true 500 0)).1.active = true := by
  have h := zero_step_move_never_completes 0 initialStepper true 500 0
    [quietInput, quietInput, quietInput]
    (by intro inp hmem; fin_cases hmem <;> exact ⟨rfl, rfl⟩)
  exact ⟨h.1, h.2.2.1⟩

end LCleaner
